import Mathlib

/-!
Verification of `gradio/utils.py` against its natural-language specification.

Python functions are shallowly embedded as Lean functions.  Python strings
are modelled either as Lean `String` or as `List Char` (when byte lengths
and slicing matter); fallible operations are modelled with `Except`, where
the error type stands for the Python exception that would be raised.
-/

/-- The single-quote character `'` (code point 39) that
`sanitize_value_for_csv` prepends to unsafe values. -/
def squoteChar : Char := Char.ofNat 39

/-- A value written to a CSV cell: Python `str | Number`. -/
inductive CsvValue where
  | num (n : Int)
  | str (s : String)
deriving DecidableEq, Repr

/-- Python substring containment `needle in haystack` on character
lists. -/
def isInfixOfCh (needle : List Char) : List Char → Bool
  | [] => needle.isEmpty
  | c :: rest => needle.isPrefixOf (c :: rest) || isInfixOfCh needle rest

/-- Embedding of `sanitize_value_for_csv` (utils.py lines 660-673).
Numbers are returned unchanged; a string is prefixed with a quote
character when it starts with one of the unsafe characters or contains
one of the unsafe comma-led sequences. -/
def sanitize_value_for_csv : CsvValue → CsvValue
  | .num n => .num n
  | .str value =>
    if (["=", "+", "-", "@", "\t", "\n"].any fun p =>
          p.data.isPrefixOf value.data)
        || ([",=", ",+", ",-", ",@", ",\t", ",\n"].any fun q =>
              isInfixOfCh q.data value.data)
    then .str (String.singleton squoteChar ++ value)
    else .str value

/-- UTF-8 byte length of a Python string modelled as a character list
(Python `len(filename.encode())`). -/
def utf8Len (l : List Char) : Nat := (l.map Char.utf8Size).sum

/-- The character filter of `strip_invalid_filename_characters`:
`char.isalnum() or char in "._- "`.  Python's `str.isalnum` is
Unicode-aware, so it is taken as a parameter `isalnum`. -/
def keepFilenameChar (isalnum : Char → Bool) (c : Char) : Bool :=
  isalnum c || ['.', '_', '-', ' '].contains c

/-- The `while filename_len > max_bytes` loop of
`strip_invalid_filename_characters`: repeatedly drop the last character
(`filename[:-1]`) until the UTF-8 length fits, breaking on the empty
string. -/
def truncateToMaxBytes (max_bytes : Nat) : List Char → List Char
  | l =>
    if utf8Len l > max_bytes then
      if h : l.length = 0 then l
      else truncateToMaxBytes max_bytes l.dropLast
    else l
termination_by l => l.length
decreasing_by
  simp_wf
  exact Nat.pos_of_ne_zero h

/-- Embedding of `strip_invalid_filename_characters` (utils.py lines
647-657): filter the characters, then truncate from the right until the
UTF-8 byte length is at most `max_bytes`. -/
def strip_invalid_filename_characters (isalnum : Char → Bool)
    (filename : List Char) (max_bytes : Nat) : List Char :=
  let filtered := filename.filter (keepFilenameChar isalnum)
  if utf8Len filtered > max_bytes then truncateToMaxBytes max_bytes filtered
  else filtered

theorem utf8Len_truncate_aux (max_bytes : Nat) :
    ∀ (n : Nat) (l : List Char), l.length ≤ n →
      utf8Len (truncateToMaxBytes max_bytes l) ≤ max_bytes := by
  intro n
  induction n with
  | zero =>
    intro l hl
    have : l = [] := List.length_eq_zero.mp (Nat.le_zero.mp hl)
    subst this
    rw [truncateToMaxBytes.eq_def]
    simp [utf8Len]
  | succ n ih =>
    intro l hl
    rw [truncateToMaxBytes.eq_def]
    by_cases h : utf8Len l > max_bytes
    · simp only [h, if_true]
      by_cases hz : l.length = 0
      · have : l = [] := List.length_eq_zero.mp hz
        subst this
        simp [utf8Len] at h
      · simp only [hz, dif_neg, not_false_iff]
        exact ih l.dropLast (by simp only [List.length_dropLast]; omega)
    · simp only [h, if_false]
      omega

theorem utf8Len_truncateToMaxBytes (max_bytes : Nat) (l : List Char) :
    utf8Len (truncateToMaxBytes max_bytes l) ≤ max_bytes :=
  utf8Len_truncate_aux max_bytes l.length l le_rfl

/-- Claim C2: every string value beginning with the character `=`
(that is, of the form `'=' :: rest`) is returned with a single quote
character prepended by `sanitize_value_for_csv`. -/
theorem sanitize_value_for_csv_eq_prepends_quote (rest : List Char) :
    sanitize_value_for_csv (.str (String.mk ('=' :: rest))) =
      .str (String.singleton squoteChar ++ String.mk ('=' :: rest)) := by
  simp [sanitize_value_for_csv, List.isPrefixOf]

/-- Claim C3: for every character filter, input string and byte budget,
the result of `strip_invalid_filename_characters` has UTF-8 encoding of
at most `max_bytes` bytes. -/
theorem strip_invalid_filename_characters_le_max_bytes
    (isalnum : Char → Bool) (filename : List Char) (max_bytes : Nat) :
    utf8Len (strip_invalid_filename_characters isalnum filename max_bytes)
      ≤ max_bytes := by
  unfold strip_invalid_filename_characters
  by_cases h :
      utf8Len (filename.filter (keepFilenameChar isalnum)) > max_bytes
  · simp only [h, if_true]
    exact utf8Len_truncateToMaxBytes _ _
  · simp only [h, if_false]
    omega

/-- Python exception kinds relevant to the auxiliary network helpers.
`connectionError` and `readTimeout` are the two classes named in the
analytics `except` clauses; `other` stands for any other exception. -/
inductive PyExc where
  | connectionError
  | readTimeout
  | jsonDecodeError
  | keyError
  | other
deriving DecidableEq, Repr

/-- Embedding of `validate_url` (utils.py lines 706-711).  The outcome of
`requests.get` is passed in: `.ok b` carries the `response.ok` flag, and
`.error e` is a raised exception, which the bare `except Exception`
turns into `False`. -/
def validate_url (getOutcome : Except PyExc Bool) : Bool :=
  match getOutcome with
  | .ok b => b
  | .error _ => false

/-- Embedding of `initiated_analytics` (utils.py lines 101-107).  The
outcome of `requests.post` is passed in; only `requests.ConnectionError`
and `requests.exceptions.ReadTimeout` are caught, any other exception
propagates. -/
def initiated_analytics (postOutcome : Except PyExc Unit) : Except PyExc Unit :=
  match postOutcome with
  | .ok _ => .ok ()
  | .error .connectionError => .ok ()
  | .error .readTimeout => .ok ()
  | .error e => .error e

/-- The outside world as seen by `version_check`: reading the local
version file, fetching and parsing the latest version, and the
`StrictVersion` comparison plus printing (which may itself raise on a
malformed version string). -/
structure VersionCheckWorld where
  currentVersion : Except PyExc String
  latestVersion : Except PyExc String
  compareAndPrint : String → String → Except PyExc Unit

/-- Embedding of `version_check` (utils.py lines 65-87).
`json.decoder.JSONDecodeError` and `KeyError` are caught with a warning;
the final bare `except: pass` catches everything else. -/
def version_check (w : VersionCheckWorld) : Except PyExc Unit :=
  match (do
    let c ← w.currentVersion
    let l ← w.latestVersion
    w.compareAndPrint l c : Except PyExc Unit) with
  | .ok _ => .ok ()
  | .error .jsonDecodeError => .ok ()
  | .error .keyError => .ok ()
  | .error _ => .ok ()

/-- The outside world as seen by `launch_counter`: whether the JSON file
exists, the outcome of reading and extracting the counter from it, and
the outcome of writing a counter back. -/
structure LaunchCounterWorld where
  fileExists : Bool
  readCounter : Except PyExc Nat
  writeCounter : Nat → Except PyExc Unit

/-- Embedding of `launch_counter` (utils.py lines 201-216): create the
file with `{"launches": 1}` when absent, otherwise read, increment and
rewrite; every failure is swallowed by the blanket `except: pass`. -/
def launch_counter (w : LaunchCounterWorld) : Except PyExc Unit :=
  match (do
    if !w.fileExists then
      w.writeCounter 1
    else
      let launches ← w.readCounter
      w.writeCounter (launches + 1) : Except PyExc Unit) with
  | .ok _ => .ok ()
  | .error _ => .ok ()

/-- Claim C7: `validate_url` returns `False` whenever the underlying GET
raises any exception; `initiated_analytics` returns normally whenever
the POST fails with a network error (connection error or read timeout);
and `version_check` returns normally whatever the outcome of its network
request, its parsing, and its version comparison. -/
theorem auxiliary_network_helpers_suppress_errors :
    (∀ e : PyExc, validate_url (.error e) = false) ∧
      (∀ e : PyExc, e = .connectionError ∨ e = .readTimeout →
        initiated_analytics (.error e) = .ok ()) ∧
      (∀ w : VersionCheckWorld, version_check w = .ok ()) := by
  refine ⟨fun e => rfl, fun e he => ?_, fun w => ?_⟩
  · rcases he with h | h <;> subst h <;> rfl
  · unfold version_check
    split <;> rfl

theorem auxiliary_network_helpers_suppress_errors_witness :
    validate_url (.error .other) = false ∧
      ((PyExc.connectionError = PyExc.connectionError ∨
          PyExc.connectionError = PyExc.readTimeout) ∧
        initiated_analytics (.error .connectionError) = .ok ()) ∧
      version_check ⟨.ok "1.0", .error .jsonDecodeError, fun _ _ => .ok ()⟩ =
        .ok () :=
  ⟨auxiliary_network_helpers_suppress_errors.1 .other,
    ⟨Or.inl rfl,
      auxiliary_network_helpers_suppress_errors.2.1 .connectionError (Or.inl rfl)⟩,
    auxiliary_network_helpers_suppress_errors.2.2 _⟩

/-- Claim C8: `launch_counter` returns normally for every state of the
counter file (absent or present) and for every outcome of the file read
and write operations. -/
theorem launch_counter_never_raises (w : LaunchCounterWorld) :
    launch_counter w = .ok () := by
  unfold launch_counter
  split <;> rfl

/-- Configuration of an `AsyncRequest` (utils.py lines 455-486): the two
optional validation steps, the exception-wrapping constructor
`exception_type`, and the `raise_for_status` flag.  `E` models Python
exception values and `J` parsed JSON bodies. -/
structure AsyncRequestConfig (E J : Type) where
  validation_model : Option (J → Except E J)
  validation_function : Option (J → Except E J)
  exception_type : E → E
  raise_for_status : Bool

/-- The observable behaviour of one HTTP response: its status code, the
exception `response.raise_for_status()` would raise (none when the
status is not an error status), and the outcome of `response.json()`. -/
structure HttpResponse (E J : Type) where
  status_code : Nat
  raiseForStatusErr : Option E
  jsonOutcome : Except E J

/-- The instance attributes of an `AsyncRequest` after awaiting it. -/
structure AsyncRequestState (E J : Type) where
  exception : Option E
  status : Option Nat
  json_response_data : Option J
  validated_data : Option J

/-- Embedding of `AsyncRequest._validate_response_data` (utils.py lines
540-569).  `validated_response` starts as the raw response; the model is
applied first, then the function is applied to the model-validated
result; an exception from either step is caught and returned (first
component) together with the last successfully assigned
`validated_response` (second component). -/
def validate_response_data (cfg : AsyncRequestConfig E J) (response : J) :
    Option E × J :=
  match cfg.validation_model with
  | none =>
    match cfg.validation_function with
    | none => (none, response)
    | some f =>
      match f response with
      | .ok v => (none, v)
      | .error e => (some e, response)
  | some m =>
    match m response with
    | .error e => (some e, response)
    | .ok v1 =>
      match cfg.validation_function with
      | none => (none, v1)
      | some f =>
        match f v1 with
        | .ok v2 => (none, v2)
        | .error e => (some e, v1)

/-- Embedding of `AsyncRequest.__run` (utils.py lines 494-524), the body
of `__await__`.  The outcome of `client.send` is passed in.  The result
type is `AsyncRequestState` (not `Except ...`): awaiting never
propagates an exception; every exception is stored in the `exception`
attribute (wrapped in `exception_type` for send/status/parse failures,
raw for validation failures, exactly as in the source). -/
def asyncRequestRun (cfg : AsyncRequestConfig E J)
    (send : Except E (HttpResponse E J)) : AsyncRequestState E J :=
  match send with
  | .error e =>
    { exception := some (cfg.exception_type e), status := none,
      json_response_data := none, validated_data := none }
  | .ok resp =>
    match (if cfg.raise_for_status then resp.raiseForStatusErr else none) with
    | some e =>
      { exception := some (cfg.exception_type e), status := some resp.status_code,
        json_response_data := none, validated_data := none }
    | none =>
      match resp.jsonOutcome with
      | .error e =>
        { exception := some (cfg.exception_type e), status := some resp.status_code,
          json_response_data := none, validated_data := none }
      | .ok j =>
        let v := validate_response_data cfg j
        { exception := v.1, status := some resp.status_code,
          json_response_data := some j, validated_data := some v.2 }

/-- Whether some step of the request pipeline (sending, status check,
JSON parsing, validation) raises an exception. -/
def requestPipelineFails (cfg : AsyncRequestConfig E J)
    (send : Except E (HttpResponse E J)) : Bool :=
  match send with
  | .error _ => true
  | .ok resp =>
    match (if cfg.raise_for_status then resp.raiseForStatusErr else none) with
    | some _ => true
    | none =>
      match resp.jsonOutcome with
      | .error _ => true
      | .ok j => (validate_response_data cfg j).1.isSome

/-- Embedding of the `AsyncRequest.has_exception` property (utils.py
lines 622-624). -/
def has_exception (st : AsyncRequestState E J) : Bool :=
  st.exception.isSome

/-- Embedding of `AsyncRequest.is_valid` (utils.py lines 595-609); the
`Except` result models the fact that it raises the stored exception when
called with `raise_exceptions=True`. -/
def is_valid (st : AsyncRequestState E J) (raise_exceptions : Bool) :
    Except E Bool :=
  match st.exception with
  | some e => if raise_exceptions then .error e else .ok false
  | none => .ok true

/-- Embedding of the `AsyncRequest.raise_exceptions` property (utils.py
lines 626-629): re-raise the stored exception on demand. -/
def raise_stored_exception (st : AsyncRequestState E J) : Except E Unit :=
  match st.exception with
  | some e => .error e
  | none => .ok ()

/-- Claim C1: awaiting an `AsyncRequest` always yields a state (the type
of `asyncRequestRun` is exception-free, so nothing propagates);
`has_exception` is true exactly when some step of the pipeline raised;
`is_valid` returns `False` without raising in that case and raises the
stored exception only when called with `raise_exceptions=True`; and the
stored exception can be re-raised on demand. -/
theorem asyncRequest_exception_capture (cfg : AsyncRequestConfig E J)
    (send : Except E (HttpResponse E J)) :
    (has_exception (asyncRequestRun cfg send) = requestPipelineFails cfg send) ∧
      (has_exception (asyncRequestRun cfg send) = true →
        is_valid (asyncRequestRun cfg send) false = .ok false) ∧
      (has_exception (asyncRequestRun cfg send) = false →
        ∀ b, is_valid (asyncRequestRun cfg send) b = .ok true) ∧
      (∀ e, (asyncRequestRun cfg send).exception = some e →
        is_valid (asyncRequestRun cfg send) true = .error e ∧
          raise_stored_exception (asyncRequestRun cfg send) = .error e) := by
  refine ⟨?_, ?_, ?_, ?_⟩
  · unfold asyncRequestRun requestPipelineFails has_exception
    rcases send with e | resp
    · rfl
    · rcases hr : (if cfg.raise_for_status then resp.raiseForStatusErr else none)
        with _ | e
      · rcases hj : resp.jsonOutcome with e | j <;> simp [hr, hj]
      · simp [hr]
  · intro h
    unfold is_valid
    unfold has_exception at h
    rcases hx : (asyncRequestRun cfg send).exception with _ | e
    · rw [hx] at h; simp [Option.isSome] at h
    · rfl
  · intro h b
    unfold is_valid
    unfold has_exception at h
    rcases hx : (asyncRequestRun cfg send).exception with _ | e
    · rfl
    · rw [hx] at h; simp [Option.isSome] at h
  · intro e he
    unfold is_valid raise_stored_exception
    rw [he]
    exact ⟨rfl, rfl⟩

theorem asyncRequest_exception_capture_witness :
    (has_exception (asyncRequestRun
        (⟨none, none, id, false⟩ : AsyncRequestConfig Nat Nat)
        (.error 7)) = true →
      is_valid (asyncRequestRun
        (⟨none, none, id, false⟩ : AsyncRequestConfig Nat Nat)
        (.error 7)) false = .ok false) ∧
      ((asyncRequestRun (⟨none, none, id, false⟩ : AsyncRequestConfig Nat Nat)
          (.error 7)).exception = some 7 →
        is_valid (asyncRequestRun
          (⟨none, none, id, false⟩ : AsyncRequestConfig Nat Nat)
          (.error 7)) true = .error 7) ∧
      has_exception (asyncRequestRun
        (⟨none, none, id, false⟩ : AsyncRequestConfig Nat Nat)
        (.error 7)) = true :=
  ⟨(asyncRequest_exception_capture _ _).2.1,
    fun he => ((asyncRequest_exception_capture _ _).2.2.2 7 he).1,
    by decide⟩

/-- Claim C6: validation order in `AsyncRequest`.  With both a model and
a function supplied, the model runs first and the function is applied to
the model-validated result; with only one supplied, only that step runs;
with neither, the parsed body is returned unchanged. -/
theorem asyncRequest_validation_order (cfg : AsyncRequestConfig E J) (j : J) :
    (cfg.validation_model = none → cfg.validation_function = none →
        validate_response_data cfg j = (none, j)) ∧
      (∀ m v1, cfg.validation_model = some m →
        cfg.validation_function = none → m j = .ok v1 →
        validate_response_data cfg j = (none, v1)) ∧
      (∀ f v, cfg.validation_model = none →
        cfg.validation_function = some f → f j = .ok v →
        validate_response_data cfg j = (none, v)) ∧
      (∀ m f v1 v2, cfg.validation_model = some m →
        cfg.validation_function = some f → m j = .ok v1 → f v1 = .ok v2 →
        validate_response_data cfg j = (none, v2)) := by
  refine ⟨fun hm hf => ?_, fun m v1 hm hf h1 => ?_,
    fun f v hm hf h1 => ?_, fun m f v1 v2 hm hf h1 h2 => ?_⟩
  · simp [validate_response_data, hm, hf]
  · simp [validate_response_data, hm, hf, h1]
  · simp [validate_response_data, hm, hf, h1]
  · simp [validate_response_data, hm, hf, h1, h2]

theorem asyncRequest_validation_order_witness :
    ((⟨some (fun n => .ok (n + 1)), some (fun n => .ok (n * 10)), id, false⟩ :
          AsyncRequestConfig Nat Nat).validation_model =
        some (fun n => .ok (n + 1))) ∧
      ((fun (n : Nat) => (.ok (n + 1) : Except Nat Nat)) 2 = .ok 3) ∧
      ((fun (n : Nat) => (.ok (n * 10) : Except Nat Nat)) 3 = .ok 30) ∧
      validate_response_data
        (⟨some (fun n => .ok (n + 1)), some (fun n => .ok (n * 10)), id, false⟩ :
          AsyncRequestConfig Nat Nat) 2 = (none, 30) :=
  ⟨rfl, rfl, rfl,
    (asyncRequest_validation_order _ 2).2.2.2 _ _ 3 30 rfl rfl rfl rfl⟩

/-- Python slice `s[a:b]` (for non-negative indices, clamped at the
string length). -/
def pySlice (s : List Char) (a b : Nat) : List Char := (s.take b).drop a

/-- One entity group as consumed by `format_ner_list`: the fields
`entity_group`, `start` and `end` (the latter spelled `end_`, since
`end` is a Lean keyword). -/
structure NerGroup where
  entity_group : String
  start : Nat
  end_ : Nat
deriving DecidableEq, Repr

/-- The body of the `for group in ner_groups` loop of `format_ner_list`:
append the plain text before the group and the group's own text, and
remember `prev_end = end`. -/
def nerStep (s : List Char) (acc : List (List Char × Option String) × Nat)
    (group : NerGroup) : List (List Char × Option String) × Nat :=
  (acc.1 ++ [(pySlice s acc.2 group.start, none),
      (pySlice s group.start group.end_, some group.entity_group)],
    group.end_)

/-- Embedding of `format_ner_list` (utils.py lines 281-295). -/
def format_ner_list (input_string : List Char) (ner_groups : List NerGroup) :
    List (List Char × Option String) :=
  if ner_groups.length = 0 then [(input_string, none)]
  else
    let r := ner_groups.foldl (nerStep input_string) ([], 0)
    r.1 ++ [(input_string.drop r.2, none)]

/-- The hypothesis of claim C9: starting from offset `prev`, the groups
have increasing, non-overlapping offsets within the bounds of a string
of length `len`. -/
def nerWellOrdered (len : Nat) : Nat → List NerGroup → Bool
  | _, [] => true
  | prev, g :: rest =>
    decide (prev ≤ g.start) && decide (g.start ≤ g.end_) &&
      decide (g.end_ ≤ len) && nerWellOrdered len g.end_ rest

/-- Concatenation of the text fields of the pairs returned by
`format_ner_list`. -/
def textConcat (l : List (List Char × Option String)) : List Char :=
  (l.map Prod.fst).flatten

theorem pySlice_glue (s : List Char) (a b c : Nat)
    (hab : a ≤ b) (hbc : b ≤ c) (hc : c ≤ s.length) :
    pySlice s a b ++ pySlice s b c = pySlice s a c := by
  unfold pySlice
  have h1 : s.take b = (s.take c).take b := by
    rw [List.take_take, Nat.min_eq_left hbc]
  rw [h1]
  have h2 : ((s.take c).take b).length = b := by
    rw [List.length_take, List.length_take]
    omega
  conv_rhs => rw [← List.take_append_drop b (s.take c)]
  rw [List.drop_append_eq_append_drop, h2, Nat.sub_eq_zero_of_le hab,
    List.drop_zero]

theorem drop_eq_pySlice (s : List Char) (a : Nat) :
    s.drop a = pySlice s a s.length := by
  unfold pySlice
  rw [List.take_length]

theorem textConcat_append (l1 l2 : List (List Char × Option String)) :
    textConcat (l1 ++ l2) = textConcat l1 ++ textConcat l2 := by
  unfold textConcat
  rw [List.map_append, List.flatten_append]

theorem ner_foldl_concat (s : List Char) :
    ∀ (groups : List NerGroup) (prev : Nat)
      (acc : List (List Char × Option String)),
      prev ≤ s.length →
      nerWellOrdered s.length prev groups = true →
      textConcat (groups.foldl (nerStep s) (acc, prev)).1 ++
          s.drop (groups.foldl (nerStep s) (acc, prev)).2 =
        textConcat acc ++ s.drop prev := by
  intro groups
  induction groups with
  | nil => intro prev acc _ _; rfl
  | cons g rest ih =>
    intro prev acc hprev hord
    simp only [nerWellOrdered, Bool.and_eq_true, decide_eq_true_eq] at hord
    obtain ⟨⟨⟨h1, h2⟩, h3⟩, h4⟩ := hord
    rw [List.foldl_cons]
    have hstep : nerStep s (acc, prev) g =
        (acc ++ [(pySlice s prev g.start, none),
          (pySlice s g.start g.end_, some g.entity_group)], g.end_) := rfl
    rw [hstep, ih g.end_ _ h3 h4, textConcat_append]
    have htc : textConcat [(pySlice s prev g.start, none),
        (pySlice s g.start g.end_, some g.entity_group)] =
        pySlice s prev g.start ++ pySlice s g.start g.end_ := by
      unfold textConcat
      simp
    rw [htc, List.append_assoc, List.append_assoc]
    congr 1
    rw [drop_eq_pySlice s g.end_, drop_eq_pySlice s prev, ← List.append_assoc,
      pySlice_glue s prev g.start g.end_ h1 h2 h3,
      pySlice_glue s prev g.end_ s.length (le_trans h1 h2) h3 le_rfl]

/-- Claim C9: with an empty group list `format_ner_list` returns the
single pair of the whole input and no entity; with groups whose offsets
are increasing, non-overlapping and within bounds, concatenating the
text fields of the returned pairs yields exactly the input string. -/
theorem format_ner_list_concat (s : List Char) (groups : List NerGroup) :
    (groups = [] → format_ner_list s groups = [(s, none)]) ∧
      (nerWellOrdered s.length 0 groups = true →
        textConcat (format_ner_list s groups) = s) := by
  constructor
  · intro h
    subst h
    rfl
  · intro hord
    unfold format_ner_list
    by_cases h : groups.length = 0
    · have : groups = [] := List.length_eq_zero.mp h
      subst this
      simp [textConcat]
    · simp only [h, if_false]
      rw [textConcat_append]
      have := ner_foldl_concat s groups 0 [] (Nat.zero_le _) hord
      simp only [List.drop_zero] at this
      have htc : textConcat [((s.drop
          (groups.foldl (nerStep s) ([], 0)).2), none)] =
          s.drop (groups.foldl (nerStep s) ([], 0)).2 := by
        simp [textConcat]
      rw [htc]
      calc textConcat (groups.foldl (nerStep s) ([], 0)).1 ++
            s.drop (groups.foldl (nerStep s) ([], 0)).2
          = textConcat [] ++ s := this
        _ = s := by simp [textConcat]

theorem format_ner_list_concat_witness :
    nerWellOrdered (['a', 'b', 'c', 'd'] : List Char).length 0
        [⟨"PER", 1, 2⟩, ⟨"LOC", 3, 4⟩] = true ∧
      textConcat (format_ner_list ['a', 'b', 'c', 'd']
        [⟨"PER", 1, 2⟩, ⟨"LOC", 3, 4⟩]) = ['a', 'b', 'c', 'd'] :=
  ⟨by decide,
    (format_ner_list_concat ['a', 'b', 'c', 'd']
      [⟨"PER", 1, 2⟩, ⟨"LOC", 3, 4⟩]).2 (by decide)⟩

/-- A Python value as manipulated by `delete_none`: `None`, atoms, and
the four container types the function recurses into.  Dictionary keys
may themselves be `None` (`delete_none` checks `key is None`), so keys
are modelled as `Option String`. -/
inductive PyVal where
  | noneV : PyVal
  | int (n : Int) : PyVal
  | str (s : String) : PyVal
  | dict (items : List (Option String × PyVal)) : PyVal
  | list (items : List PyVal) : PyVal
  | tuple (items : List PyVal) : PyVal
  | set (items : List PyVal) : PyVal

/-- Python `value is None`. -/
def isNoneV : PyVal → Bool
  | .noneV => true
  | _ => false

/-- Python `isinstance(value, (list, dict, tuple, set))`. -/
def isContainer : PyVal → Bool
  | .dict _ => true
  | .list _ => true
  | .tuple _ => true
  | .set _ => true
  | _ => false

mutual

/-- Embedding of `delete_none` (utils.py lines 298-315).  Note that the
recursive calls in the source are `delete_none(value)` and
`delete_none(item)`, that is, with `skip_value` at its default `False`:
the flag is not propagated. -/
def delete_none (skip_value : Bool) : PyVal → PyVal
  | .dict items => .dict (deleteNoneItems skip_value items)
  | .list items => .list (deleteNoneSeq items)
  | .set items => .set (deleteNoneSeq items)
  | .tuple items => .tuple (deleteNoneSeq items)
  | v => v

/-- The `for key, value in list(_dict.items())` loop of `delete_none`:
keep a top-level `"value"` entry when `skip_value` is set, replace a
container value by its recursively cleaned version (with
`skip_value=False`), and delete entries whose value or key is `None`. -/
def deleteNoneItems (skip_value : Bool) :
    List (Option String × PyVal) → List (Option String × PyVal)
  | [] => []
  | (k, v) :: rest =>
    (if skip_value && decide (k = some "value") then [(k, v)]
     else if isContainer v then [(k, delete_none false v)]
     else if isNoneV v || decide (k = none) then []
     else [(k, v)]) ++ deleteNoneItems skip_value rest

/-- The `type(_dict)(delete_none(item) for item in _dict if item is not
None)` branch of `delete_none` for lists, sets and tuples. -/
def deleteNoneSeq : List PyVal → List PyVal
  | [] => []
  | v :: rest =>
    (if isNoneV v then [] else [delete_none false v]) ++ deleteNoneSeq rest

end

/-- Claim C10: `delete_none` with `skip_value=True` keeps a top-level
`"value"` entry unchanged even when it is `None`, but the flag is not
propagated into recursive calls (a nested dictionary is cleaned with
`skip_value=False`), so a `"value"` key that is `None` inside a nested
container is deleted like any other `None` entry. -/
theorem delete_none_skip_value_top_level_only :
    (∀ (v : PyVal) (rest : List (Option String × PyVal)),
      deleteNoneItems true ((some "value", v) :: rest) =
        (some "value", v) :: deleteNoneItems true rest) ∧
      (∀ (k : Option String) (inner rest : List (Option String × PyVal)),
        k ≠ some "value" →
        deleteNoneItems true ((k, .dict inner) :: rest) =
          (k, .dict (deleteNoneItems false inner)) :: deleteNoneItems true rest) ∧
      (∀ inner : List (Option String × PyVal),
        deleteNoneItems false ((some "value", .noneV) :: inner) =
          deleteNoneItems false inner) ∧
      delete_none true
          (.dict [(some "a", .dict [(some "value", .noneV)]),
            (some "value", .noneV)]) =
        .dict [(some "a", .dict []), (some "value", .noneV)] := by
  refine ⟨fun v rest => ?_, fun k inner rest hk => ?_, fun inner => ?_, ?_⟩
  · simp [deleteNoneItems]
  · simp [deleteNoneItems, isContainer, delete_none, hk]
  · simp [deleteNoneItems, isContainer, isNoneV]
  · simp [delete_none, deleteNoneItems, isContainer, isNoneV]

theorem delete_none_skip_value_top_level_only_witness :
    ((some "a" : Option String) ≠ some "value") ∧
      deleteNoneItems true
          [(some "a", PyVal.dict [(some "value", PyVal.noneV)])] =
        [(some "a", PyVal.dict (deleteNoneItems false
          [(some "value", PyVal.noneV)]))] :=
  ⟨by decide,
    delete_none_skip_value_top_level_only.2.1 (some "a")
      [(some "value", PyVal.noneV)] [] (by decide)⟩

/-- The candidate name `name + f"_{k}"` built by `append_unique_suffix`
(`Nat.repr` is the decimal rendering used by the f-string). -/
def suffixedName (name : String) (k : Nat) : String :=
  name ++ "_" ++ Nat.repr k

/-- The `while new_name in list_of_names` loop of
`append_unique_suffix`, with explicit fuel (the loop in the source
terminates because only finitely many candidates can collide). -/
def findSuffix (name : String) (names : List String) (k fuel : Nat) : String :=
  match fuel with
  | 0 => suffixedName name k
  | fuel + 1 =>
    if suffixedName name k ∈ names then findSuffix name names (k + 1) fuel
    else suffixedName name k

/-- Embedding of `append_unique_suffix` (utils.py lines 692-703). -/
def append_unique_suffix (name : String) (list_of_names : List String) : String :=
  if name ∉ list_of_names then name
  else findSuffix name list_of_names 1 (list_of_names.length + 1)

/-- Numeric value of a decimal digit character. -/
def digitVal (c : Char) : Nat := c.toNat - 48

/-- Value of a most-significant-first decimal digit list. -/
def digitsVal (l : List Char) : Nat :=
  l.foldl (fun a c => 10 * a + digitVal c) 0

theorem toDigitsCore_append (fuel : Nat) :
    ∀ (n : Nat) (ds : List Char),
      Nat.toDigitsCore 10 fuel n ds = Nat.toDigitsCore 10 fuel n [] ++ ds := by
  induction fuel with
  | zero => intro n ds; simp [Nat.toDigitsCore]
  | succ fuel ih =>
    intro n ds
    unfold Nat.toDigitsCore
    by_cases h : n / 10 = 0
    · simp [h]
    · simp only [h, if_false]
      rw [ih (n / 10) (Nat.digitChar (n % 10) :: ds),
        ih (n / 10) [Nat.digitChar (n % 10)]]
      simp

theorem digitVal_digitChar : ∀ k, k < 10 → digitVal (Nat.digitChar k) = k := by
  decide

theorem digitsVal_toDigitsCore (fuel : Nat) :
    ∀ n, n < 10 ^ fuel → digitsVal (Nat.toDigitsCore 10 fuel n []) = n := by
  induction fuel with
  | zero =>
    intro n hn
    have : n = 0 := by simpa using hn
    subst this
    rfl
  | succ fuel ih =>
    intro n hn
    unfold Nat.toDigitsCore
    by_cases h : n / 10 = 0
    · have hn10 : n < 10 := (Nat.div_eq_zero_iff (by norm_num)).mp h
      simp only [h, if_true]
      show digitsVal [Nat.digitChar (n % 10)] = n
      rw [Nat.mod_eq_of_lt hn10]
      unfold digitsVal
      simp [digitVal_digitChar n hn10]
    · simp only [h, if_false]
      rw [toDigitsCore_append]
      have hdiv : n / 10 < 10 ^ fuel := by
        rw [Nat.div_lt_iff_lt_mul (by norm_num)]
        calc n < 10 ^ (fuel + 1) := hn
          _ = 10 ^ fuel * 10 := pow_succ 10 fuel
      have hrec := ih (n / 10) hdiv
      unfold digitsVal at hrec ⊢
      rw [List.foldl_append, hrec]
      simp only [List.foldl_cons, List.foldl_nil]
      rw [digitVal_digitChar (n % 10) (Nat.mod_lt n (by norm_num))]
      omega

theorem natRepr_val (n : Nat) : digitsVal (Nat.repr n).data = n := by
  unfold Nat.repr
  have h1 : n < 10 ^ (n + 1) := by
    calc n < 10 ^ n := Nat.lt_pow_self (by norm_num) n
      _ ≤ 10 ^ (n + 1) := Nat.pow_le_pow_right (by norm_num) (Nat.le_succ n)
  have h2 : (Nat.toDigits 10 n).asString.data = Nat.toDigits 10 n := rfl
  rw [h2]
  unfold Nat.toDigits
  exact digitsVal_toDigitsCore (n + 1) n h1

theorem natRepr_injective : Function.Injective Nat.repr := by
  intro m n h
  have := congrArg (fun s => digitsVal s.data) h
  simpa [natRepr_val] using this

theorem suffixedName_inj (name : String) (j1 j2 : Nat)
    (h : suffixedName name j1 = suffixedName name j2) : j1 = j2 := by
  apply natRepr_injective
  unfold suffixedName at h
  have hd := congrArg String.data h
  simp only [String.data_append] at hd
  have := List.append_cancel_left hd
  exact congrArg String.mk this

theorem exists_free_suffix (name : String) (names : List String) :
    ∃ j, 1 ≤ j ∧ j < names.length + 2 ∧ suffixedName name j ∉ names := by
  by_contra hcon
  push_neg at hcon
  have hsub : ((List.range (names.length + 1)).map
      (fun i => suffixedName name (i + 1))) ⊆ names := by
    intro x hx
    simp only [List.mem_map, List.mem_range] at hx
    obtain ⟨i, hi, rfl⟩ := hx
    exact hcon (i + 1) (by omega) (by omega)
  have hnodup : ((List.range (names.length + 1)).map
      (fun i => suffixedName name (i + 1))).Nodup := by
    refine List.Nodup.map ?_ (List.nodup_range _)
    intro a b hab
    have := suffixedName_inj name (a + 1) (b + 1) hab
    omega
  have h1 : ((List.range (names.length + 1)).map
      (fun i => suffixedName name (i + 1))).toFinset.card = names.length + 1 := by
    rw [List.toFinset_card_of_nodup hnodup]
    simp
  have h2 : ((List.range (names.length + 1)).map
      (fun i => suffixedName name (i + 1))).toFinset ⊆ names.toFinset := by
    intro x hx
    rw [List.mem_toFinset] at hx ⊢
    exact hsub hx
  have h3 := Finset.card_le_card h2
  have h4 := List.toFinset_card_le names
  omega

theorem findSuffix_spec (name : String) (names : List String) :
    ∀ (fuel k : Nat),
      (∃ j, k ≤ j ∧ j < k + fuel ∧ suffixedName name j ∉ names) →
      findSuffix name names k fuel ∉ names ∧
        ∃ j, k ≤ j ∧ findSuffix name names k fuel = suffixedName name j := by
  intro fuel
  induction fuel with
  | zero =>
    intro k hk
    obtain ⟨j, hj1, hj2, _⟩ := hk
    omega
  | succ fuel ih =>
    intro k hk
    obtain ⟨j, hj1, hj2, hjfree⟩ := hk
    unfold findSuffix
    by_cases hmem : suffixedName name k ∈ names
    · rw [if_pos hmem]
      have hjk : j ≠ k := by
        intro he
        subst he
        exact hjfree hmem
      have := ih (k + 1) ⟨j, by omega, by omega, hjfree⟩
      refine ⟨this.1, ?_⟩
      obtain ⟨j', hj', he⟩ := this.2
      exact ⟨j', by omega, he⟩
    · rw [if_neg hmem]
      exact ⟨hmem, k, le_refl k, rfl⟩

/-- Claim C4: when `name` is not in the list, `append_unique_suffix`
returns it unchanged; when it is, the returned name carries a numerical
suffix (`name + "_" + decimal k`, `k ≥ 1`) and does not appear in the
list. -/
theorem append_unique_suffix_spec (name : String) (list_of_names : List String) :
    (name ∉ list_of_names → append_unique_suffix name list_of_names = name) ∧
      (name ∈ list_of_names →
        append_unique_suffix name list_of_names ∉ list_of_names ∧
          ∃ k, 1 ≤ k ∧ append_unique_suffix name list_of_names =
            name ++ "_" ++ Nat.repr k) := by
  constructor
  · intro h
    unfold append_unique_suffix
    rw [if_pos h]
  · intro h
    unfold append_unique_suffix
    rw [if_neg (by simpa using h)]
    obtain ⟨j, hj1, hj2, hjfree⟩ := exists_free_suffix name list_of_names
    have hw := findSuffix_spec name list_of_names (list_of_names.length + 1) 1
      ⟨j, hj1, by omega, hjfree⟩
    refine ⟨hw.1, ?_⟩
    obtain ⟨j', hj', he⟩ := hw.2
    exact ⟨j', hj', he⟩

theorem append_unique_suffix_spec_witness :
    ("a" : String) ∈ ["a", "a_1"] ∧
      (append_unique_suffix "a" ["a", "a_1"] ∉ (["a", "a_1"] : List String) ∧
        ∃ k, 1 ≤ k ∧ append_unique_suffix "a" ["a", "a_1"] =
          "a" ++ "_" ++ Nat.repr k) :=
  ⟨by decide, (append_unique_suffix_spec "a" ["a", "a_1"]).2 (by decide)⟩

/-- A node of the `config["layout"]` tree: a block id, either without a
`"children"` key (`leaf`) or with a (possibly empty) list of children
(`node`).  The distinction matters because
`assert_configs_are_equivalent_besides_ids` tests `"children" in child`. -/
inductive Layout where
  | leaf (id : Nat)
  | node (id : Nat) (children : List Layout)

/-- The `"id"` entry of a layout child dict. -/
def layoutId : Layout → Nat
  | .leaf i => i
  | .node i _ => i

/-- One entry of `config["dependencies"]`: the three id lists that the
checker pops and compares component-wise, and the rest of the dict
(compared with `==` after the pops). -/
structure Dependency (δ : Type) where
  targets : List Nat
  inputs : List Nat
  outputs : List Nat
  rest : δ

/-- A Blocks config as consumed by
`assert_configs_are_equivalent_besides_ids`: the values at the root
keys (`"mode"`, `"theme"`), the component list (id paired with the rest
of the component dict), the layout children and the dependencies. -/
structure BlocksConfig (β δ ρ : Type) where
  rootVals : ρ
  components : List (Nat × β)
  layout : List Layout
  dependencies : List (Dependency δ)

/-- The lookup `list(filter(lambda c: c["id"] == id, components))[0]`
minus its `"id"` key; `none` models the `IndexError` raised when no
component has the id. -/
def findComponent (comps : List (Nat × β)) (i : Nat) : Option β :=
  ((comps.filter fun c => c.1 == i).head?).map Prod.snd

/-- Embedding of the inner `assert_same_components` (utils.py lines
249-256): look both ids up and compare the components minus their ids;
any failure (missing id or differing component) is `false`. -/
def assert_same_components [BEq β] (comps1 comps2 : List (Nat × β))
    (i1 i2 : Nat) : Bool :=
  match findComponent comps1 i1, findComponent comps2 i2 with
  | some b1, some b2 => b1 == b2
  | _, _ => false

/-- Embedding of `same_children_recursive` (utils.py lines 258-262):
`zip` truncates to the shorter list; each pair must have matching
components, and when either child has a `"children"` key both must
(otherwise the `child["children"]` access raises, modelled `false`) and
the children are compared recursively. -/
def same_children_recursive [BEq β] (comps1 comps2 : List (Nat × β)) :
    List Layout → List Layout → Bool
  | [], _ => true
  | _ :: _, [] => true
  | .leaf i1 :: r1, .leaf i2 :: r2 =>
    assert_same_components comps1 comps2 i1 i2 &&
      same_children_recursive comps1 comps2 r1 r2
  | .node i1 l1 :: r1, .node i2 l2 :: r2 =>
    assert_same_components comps1 comps2 i1 i2 &&
      same_children_recursive comps1 comps2 l1 l2 &&
      same_children_recursive comps1 comps2 r1 r2
  | .leaf _ :: _, .node _ _ :: _ => false
  | .node _ _ :: _, .leaf _ :: _ => false

/-- The body of the `for d1, d2 in zip(dependencies, ...)` loop (utils.py
lines 268-276): compare targets, inputs and outputs component-wise
(each `zip` truncating), then the rest of the two dicts with `==`. -/
def checkDependencyPair [BEq β] [BEq δ] (comps1 comps2 : List (Nat × β))
    (d1 d2 : Dependency δ) : Bool :=
  ((d1.targets.zip d2.targets).all fun p =>
      assert_same_components comps1 comps2 p.1 p.2) &&
    ((d1.inputs.zip d2.inputs).all fun p =>
      assert_same_components comps1 comps2 p.1 p.2) &&
    ((d1.outputs.zip d2.outputs).all fun p =>
      assert_same_components comps1 comps2 p.1 p.2) &&
    (d1.rest == d2.rest)

/-- Embedding of `assert_configs_are_equivalent_besides_ids` (utils.py
lines 227-278); `true` means every assertion passes (and no lookup
raises) and the function returns `True`. -/
def assert_configs_are_equivalent_besides_ids [BEq β] [BEq δ] [BEq ρ]
    (config1 config2 : BlocksConfig β δ ρ) : Bool :=
  (config1.rootVals == config2.rootVals) &&
    (config1.components.length == config2.components.length) &&
    same_children_recursive config1.components config2.components
      config1.layout config2.layout &&
    ((config1.dependencies.zip config2.dependencies).all fun p =>
      checkDependencyPair config1.components config2.components p.1 p.2)

/-- Renumbering of the component list by an id map `φ`. -/
def renameComponents (φ : Nat → Nat) (comps : List (Nat × β)) :
    List (Nat × β) :=
  comps.map fun c => (φ c.1, c.2)

mutual

/-- Renumbering of a layout tree by an id map `φ`. -/
def renameLayout (φ : Nat → Nat) : Layout → Layout
  | .leaf i => .leaf (φ i)
  | .node i children => .node (φ i) (renameLayoutList φ children)

/-- Renumbering of a list of layout trees by an id map `φ`. -/
def renameLayoutList (φ : Nat → Nat) : List Layout → List Layout
  | [] => []
  | l :: rest => renameLayout φ l :: renameLayoutList φ rest

end

/-- Renumbering of a dependency by an id map `φ`. -/
def renameDependency (φ : Nat → Nat) (d : Dependency δ) : Dependency δ :=
  { targets := d.targets.map φ, inputs := d.inputs.map φ,
    outputs := d.outputs.map φ, rest := d.rest }

/-- Renumbering of a whole config by an id map `φ`: the same components,
layout structure and dependencies, with every block id replaced. -/
def renameConfig (φ : Nat → Nat) (c : BlocksConfig β δ ρ) :
    BlocksConfig β δ ρ :=
  { rootVals := c.rootVals,
    components := renameComponents φ c.components,
    layout := renameLayoutList φ c.layout,
    dependencies := c.dependencies.map (renameDependency φ) }

/-- Whether some component of the list carries the id `i`. -/
def hasId (comps : List (Nat × β)) (i : Nat) : Bool :=
  comps.any fun c => c.1 == i

mutual

/-- Well-formedness of a layout tree: every id it mentions has a
component. -/
def layoutIdsOk (comps : List (Nat × β)) : Layout → Bool
  | .leaf i => hasId comps i
  | .node i children => hasId comps i && layoutListIdsOk comps children

/-- Well-formedness of a list of layout trees. -/
def layoutListIdsOk (comps : List (Nat × β)) : List Layout → Bool
  | [] => true
  | l :: rest => layoutIdsOk comps l && layoutListIdsOk comps rest

end

/-- Well-formedness of a dependency: every referenced id has a
component. -/
def depIdsOk (comps : List (Nat × β)) (d : Dependency δ) : Bool :=
  d.targets.all (hasId comps) && d.inputs.all (hasId comps) &&
    d.outputs.all (hasId comps)

/-- Well-formedness of a config: every id referenced by the layout or
the dependencies has a component. -/
def configIdsOk (c : BlocksConfig β δ ρ) : Bool :=
  layoutListIdsOk c.components c.layout &&
    c.dependencies.all (depIdsOk c.components)

theorem findComponent_rename [BEq β] (φ : Nat → Nat)
    (hφ : Function.Injective φ) (comps : List (Nat × β)) (i : Nat) :
    findComponent (renameComponents φ comps) (φ i) = findComponent comps i := by
  unfold findComponent renameComponents
  rw [List.filter_map]
  have hpred : (comps.filter fun c =>
      ((fun c : Nat × β => (φ c.1, c.2)) c).1 == φ i) =
      comps.filter fun c => c.1 == i := by
    apply List.filter_congr
    intro c _
    cases hb : (c.1 == i) with
    | true =>
      have he : c.1 = i := eq_of_beq hb
      show (φ c.1 == φ i) = true
      rw [he]
      simp
    | false =>
      have hne : c.1 ≠ i := beq_eq_false_iff_ne.mp hb
      show (φ c.1 == φ i) = false
      rw [beq_eq_false_iff_ne]
      exact fun hh => hne (hφ hh)
  rw [show (fun c : Nat × β => c.1 == φ i) ∘ (fun c : Nat × β => (φ c.1, c.2))
      = fun c : Nat × β => ((fun c : Nat × β => (φ c.1, c.2)) c).1 == φ i
    from rfl]
  rw [hpred, List.head?_map, Option.map_map]
  rfl

theorem findComponent_isSome_of_hasId [BEq β] (comps : List (Nat × β))
    (i : Nat) (h : hasId comps i = true) :
    (findComponent comps i).isSome = true := by
  unfold hasId at h
  unfold findComponent
  rw [List.any_eq_true] at h
  obtain ⟨c, hc, hci⟩ := h
  have hmem : c ∈ comps.filter fun c => c.1 == i :=
    List.mem_filter.mpr ⟨hc, hci⟩
  cases hf : comps.filter fun c => c.1 == i with
  | nil => rw [hf] at hmem; simp at hmem
  | cons a t => simp [hf]

theorem assert_same_components_rename [BEq β] [LawfulBEq β] (φ : Nat → Nat)
    (hφ : Function.Injective φ) (comps : List (Nat × β)) (i : Nat)
    (h : hasId comps i = true) :
    assert_same_components comps (renameComponents φ comps) i (φ i) = true := by
  unfold assert_same_components
  rw [findComponent_rename φ hφ comps i]
  have hs := findComponent_isSome_of_hasId comps i h
  cases hf : findComponent comps i with
  | none => rw [hf] at hs; simp at hs
  | some b => simp

theorem same_children_rename [BEq β] [LawfulBEq β] (φ : Nat → Nat)
    (hφ : Function.Injective φ) (comps : List (Nat × β)) :
    ∀ ls : List Layout, layoutListIdsOk comps ls = true →
      same_children_recursive comps (renameComponents φ comps) ls
        (renameLayoutList φ ls) = true
  | [], _ => by simp [same_children_recursive, renameLayoutList]
  | .leaf i :: rest, h => by
    have h1 : hasId comps i = true ∧ layoutListIdsOk comps rest = true := by
      simpa [layoutListIdsOk, layoutIdsOk, Bool.and_eq_true] using h
    have hr := same_children_rename φ hφ comps rest h1.2
    simp [renameLayoutList, renameLayout, same_children_recursive,
      assert_same_components_rename φ hφ comps i h1.1, hr]
  | .node i children :: rest, h => by
    have h1 : (hasId comps i = true ∧ layoutListIdsOk comps children = true) ∧
        layoutListIdsOk comps rest = true := by
      simpa [layoutListIdsOk, layoutIdsOk, Bool.and_eq_true] using h
    have hc := same_children_rename φ hφ comps children h1.1.2
    have hr := same_children_rename φ hφ comps rest h1.2
    simp [renameLayoutList, renameLayout, same_children_recursive,
      assert_same_components_rename φ hφ comps i h1.1.1, hc, hr]
termination_by ls => sizeOf ls

theorem zip_map_assert_all [BEq β] [LawfulBEq β] (φ : Nat → Nat)
    (hφ : Function.Injective φ) (comps : List (Nat × β)) :
    ∀ ids : List Nat, ids.all (hasId comps) = true →
      ((ids.zip (ids.map φ)).all fun p =>
        assert_same_components comps (renameComponents φ comps) p.1 p.2) =
        true := by
  intro ids
  induction ids with
  | nil => intro _; rfl
  | cons i t ih =>
    intro h
    simp only [List.all_cons, Bool.and_eq_true] at h
    simp only [List.map_cons, List.zip_cons_cons, List.all_cons,
      Bool.and_eq_true]
    exact ⟨assert_same_components_rename φ hφ comps i h.1, ih h.2⟩

theorem checkDependencyPair_rename [BEq β] [LawfulBEq β] [BEq δ] [LawfulBEq δ]
    (φ : Nat → Nat) (hφ : Function.Injective φ) (comps : List (Nat × β))
    (d : Dependency δ) (h : depIdsOk comps d = true) :
    checkDependencyPair comps (renameComponents φ comps) d
      (renameDependency φ d) = true := by
  unfold depIdsOk at h
  simp only [Bool.and_eq_true] at h
  unfold checkDependencyPair renameDependency
  simp only [Bool.and_eq_true]
  exact ⟨⟨⟨zip_map_assert_all φ hφ comps d.targets h.1.1,
    zip_map_assert_all φ hφ comps d.inputs h.1.2⟩,
    zip_map_assert_all φ hφ comps d.outputs h.2⟩, beq_self_eq_true d.rest⟩

theorem all_zip_deps_rename [BEq β] [LawfulBEq β] [BEq δ] [LawfulBEq δ]
    (φ : Nat → Nat) (hφ : Function.Injective φ) (comps : List (Nat × β)) :
    ∀ deps : List (Dependency δ), deps.all (depIdsOk comps) = true →
      ((deps.zip (deps.map (renameDependency φ))).all fun p =>
        checkDependencyPair comps (renameComponents φ comps) p.1 p.2) =
        true := by
  intro deps
  induction deps with
  | nil => intro _; rfl
  | cons d t ih =>
    intro h
    simp only [List.all_cons, Bool.and_eq_true] at h
    simp only [List.map_cons, List.zip_cons_cons, List.all_cons,
      Bool.and_eq_true]
    exact ⟨checkDependencyPair_rename φ hφ comps d h.1, ih h.2⟩

/-- Claim C5: for every well-formed config (each id referenced by the
layout or the dependencies has a component) and every injective
renumbering `φ` of the block ids, the checker accepts the config paired
with its consistently renumbered copy: every assertion passes and the
function returns `True`. -/
theorem assert_configs_equivalent_of_renumbering
    [BEq β] [LawfulBEq β] [BEq δ] [LawfulBEq δ] [BEq ρ] [LawfulBEq ρ]
    (φ : Nat → Nat) (hφ : Function.Injective φ) (config : BlocksConfig β δ ρ)
    (hwf : configIdsOk config = true) :
    assert_configs_are_equivalent_besides_ids config (renameConfig φ config) =
      true := by
  unfold configIdsOk at hwf
  simp only [Bool.and_eq_true] at hwf
  unfold assert_configs_are_equivalent_besides_ids renameConfig
  simp only [Bool.and_eq_true]
  refine ⟨⟨⟨?_, ?_⟩, ?_⟩, ?_⟩
  · simp
  · simp [renameComponents]
  · exact same_children_rename φ hφ config.components config.layout hwf.1
  · exact all_zip_deps_rename φ hφ config.components config.dependencies hwf.2

theorem assert_configs_equivalent_of_renumbering_witness :
    Function.Injective (fun i : Nat => i + 10) ∧
      configIdsOk (⟨0, [(1, 100), (2, 200), (3, 300)],
        [Layout.node 1 [Layout.leaf 2], Layout.leaf 3],
        [⟨[1], [2], [3], 5⟩]⟩ : BlocksConfig Nat Nat Nat) = true ∧
      assert_configs_are_equivalent_besides_ids
        (⟨0, [(1, 100), (2, 200), (3, 300)],
          [Layout.node 1 [Layout.leaf 2], Layout.leaf 3],
          [⟨[1], [2], [3], 5⟩]⟩ : BlocksConfig Nat Nat Nat)
        (renameConfig (fun i => i + 10)
          (⟨0, [(1, 100), (2, 200), (3, 300)],
            [Layout.node 1 [Layout.leaf 2], Layout.leaf 3],
            [⟨[1], [2], [3], 5⟩]⟩ : BlocksConfig Nat Nat Nat)) = true :=
  ⟨fun a b h => Nat.add_right_cancel h,
    by simp [configIdsOk, layoutListIdsOk, layoutIdsOk, hasId, depIdsOk],
    assert_configs_equivalent_of_renumbering _
      (fun a b h => Nat.add_right_cancel h) _
      (by simp [configIdsOk, layoutListIdsOk, layoutIdsOk, hasId, depIdsOk])⟩
